import Mathlib

/-!
Verification development for the btflow studio frontend core
(`btflow_studio/frontend/src/App.tsx`): binding normalization, schema
inference, the initial-state payload builder, the execution-event
reconciler, chat-session management and storage hydration.

JavaScript values are modelled by the inductive `JVal` (JSON-like values);
external JavaScript builtins (`JSON.parse`, `Number`) are modelled as
oracle function parameters, since their exact behaviour is outside the
translated code. JavaScript objects are modelled as insertion-ordered
association lists, matching the enumeration-order semantics the code
relies on (`Object.values`, spread updates).
-/

set_option autoImplicit false

namespace BTFlow

/-- JSON-like JavaScript values. Numbers are modelled as integers; no claim
depends on fractional numeric values. -/
inductive JVal where
  | jnull
  | jbool (b : Bool)
  | jnum (n : Int)
  | jstr (s : String)
  | jarr (elems : List JVal)
  | jobj (fields : List (String × JVal))

/-- JavaScript truthiness of a `JVal` (objects and arrays are always truthy). -/
def jsTruthy : JVal → Bool
  | .jnull => false
  | .jbool b => b
  | .jnum n => !(n == 0)
  | .jstr s => !(s == "")
  | .jarr _ => true
  | .jobj _ => true

/-- Property access `v[k]` on a JavaScript value: only objects yield a
value; everything else gives `undefined` (`none`). -/
def objGet (v : JVal) (k : String) : Option JVal :=
  match v with
  | .jobj fs => fs.lookup k
  | _ => none

/-- JavaScript object update `o[k] = v` / `{...o, [k]: v}`: overwrite in
place if the key exists, otherwise append (insertion order preserved). -/
def objSet {α : Type} : List (String × α) → String → α → List (String × α)
  | [], k, v => [(k, v)]
  | (k', v') :: rest, k, v =>
    if k' == k then (k, v) :: rest else (k', v') :: objSet rest k v

/-- The whitespace characters recognized by the JavaScript string `trim`
builtin (the ones relevant to this development). -/
def isJsWs (c : Char) : Bool :=
  c == ' ' || c == '\t' || c == '\n' || c == '\r' ||
  c == Char.ofNat 11 || c == Char.ofNat 12

/-- Model of the JavaScript string `trim` builtin. -/
def jsTrim (s : String) : String :=
  String.mk (((s.toList.dropWhile isJsWs).reverse.dropWhile isJsWs).reverse)

/-- Model of the JavaScript `startsWith` builtin. -/
def jsStartsWith (s pre : String) : Bool :=
  pre.toList.isPrefixOf s.toList

/-- A user-supplied binding value as it may occur in a node's binding map
(`input_bindings` / `output_bindings`), an untyped record. -/
inductive BindVal where
  | absent
  | bnull
  | bstr (s : String)
  | bnum (n : Int)
  | bbool (b : Bool)
deriving DecidableEq

/-- `String(value)` for the binding values above (only reached for truthy
non-string values in `normalizeBinding`). -/
def bindValToString : BindVal → String
  | .absent => "undefined"
  | .bnull => "null"
  | .bstr s => s
  | .bnum n => toString n
  | .bbool b => if b then "true" else "false"

/-- `normalizeBinding` from App.tsx:
`if (!value) return fallback;` then the `state.` prefix is stripped, else
`String(value).trim()` is returned. -/
def normalizeBinding (value : BindVal) (fallback : String) : String :=
  match value with
  | .absent => fallback
  | .bnull => fallback
  | .bbool b => if b then jsTrim (bindValToString (.bbool true)) else fallback
  | .bnum n => if n == 0 then fallback else jsTrim (bindValToString (.bnum n))
  | .bstr s =>
    if s == "" then fallback
    else if jsStartsWith s "state." then String.mk (s.toList.drop 6)
    else jsTrim s

/-- A raw port entry as delivered by the node-type registry: either a bare
string or an object with optional `type` and `default`. -/
inductive RawPort where
  | pstr (s : String)
  | pobj (name : String) (ptype : Option String) (pdefault : Option JVal)

/-- A normalized port: `{name, type, default}`. -/
structure PortSpec where
  name : String
  type : String
  default : JVal

/-- `normalizePorts` from App.tsx: `if (!ports) return []`, bare strings
become `{name, type: 'str', default: ''}`, objects get `p.type || 'str'`
and `p.default ?? ''`. -/
def normalizePorts (ports : Option (List RawPort)) : List PortSpec :=
  match ports with
  | none => []
  | some ps =>
    ps.map fun p =>
      match p with
      | .pstr s => ⟨s, "str", .jstr ""⟩
      | .pobj n t d =>
        ⟨n, (match t with | none => "str" | some t' => if t' == "" then "str" else t'),
          d.getD (.jstr "")⟩

/-- Node-type registry entry (`nodeMetas` element): id plus declared
input/output ports. -/
structure NodeMeta where
  id : String
  inputs : Option (List RawPort)
  outputs : Option (List RawPort)

/-- A canvas node as far as schema inference reads it: `node.type`,
`node.data?.nodeType` and the two binding maps (absent map = `{}`). -/
structure GNode where
  id : String
  type : Option String
  nodeType : Option String
  input_bindings : Option (List (String × BindVal))
  output_bindings : Option (List (String × BindVal))

/-- `nodeMetas.find(m => m.id === node.data?.nodeType || m.id === node.type)`. -/
def metaFor (nodeMetas : List NodeMeta) (node : GNode) : Option NodeMeta :=
  nodeMetas.find? fun m => (node.nodeType == some m.id) || (node.type == some m.id)

/-- `bindings[portName]` after `bindings || {}`: missing maps and missing
keys both give `undefined`. -/
def bindingFor (bindings : Option (List (String × BindVal))) (portName : String) : BindVal :=
  match bindings with
  | none => .absent
  | some bs => (bs.lookup portName).getD .absent

/-- An inferred state field `{name, type, default}`. -/
structure StateField where
  name : String
  type : String
  default : JVal

/-- `if (!fields[target]) fields[target] = f` on the accumulating object:
insert only if the key is absent (first writer wins). -/
def insertField (fields : List (String × StateField)) (target : String) (f : StateField) :
    List (String × StateField) :=
  match fields.lookup target with
  | some _ => fields
  | none => fields ++ [(target, f)]

/-- The ordered `(target, StateField)` writes one node contributes in
`inferStateFields`: skipped entirely when its type is absent from the
registry, otherwise all input ports then all output ports. -/
def statePortWrites (nodeMetas : List NodeMeta) (node : GNode) :
    List (String × StateField) :=
  match metaFor nodeMetas node with
  | none => []
  | some meta =>
    ((normalizePorts meta.inputs).map fun port =>
      let target := normalizeBinding (bindingFor node.input_bindings port.name) port.name
      (target, StateField.mk target port.type port.default))
    ++ ((normalizePorts meta.outputs).map fun port =>
      let target := normalizeBinding (bindingFor node.output_bindings port.name) port.name
      (target, StateField.mk target port.type port.default))

/-- The full ordered write sequence of the `inferStateFields` walk: nodes
in collection order, each node's input ports before its output ports. -/
def stateWrites (nodes : List GNode) (nodeMetas : List NodeMeta) :
    List (String × StateField) :=
  nodes.flatMap (statePortWrites nodeMetas)

/-- `inferStateFields` from App.tsx: first-writer-wins accumulation over
the full walk, with the hard-coded fallback schema
(`messages`/`task`/`round`) when no field was discovered, and
`Object.values` (insertion order) as the result. -/
def inferStateFields (nodes : List GNode) (nodeMetas : List NodeMeta) : List StateField :=
  let fields := (stateWrites nodes nodeMetas).foldl (fun fs p => insertField fs p.1 p.2) []
  let fields :=
    if fields.isEmpty then
      [("messages", StateField.mk "messages" "list" (.jarr [])),
       ("task", StateField.mk "task" "str" (.jstr "")),
       ("round", StateField.mk "round" "int" (.jnum 0))]
    else fields
  fields.map Prod.snd

/-- `HIDDEN_INIT_FIELDS` from App.tsx. -/
def HIDDEN_INIT_FIELDS : List String :=
  ["tools_desc", "tools_schema", "round", "final_answer", "streaming_output",
   "score", "rounds", "score_history"]

/-- The ordered writes one node contributes in `inferInputFields`: input
ports only. -/
def inputPortWrites (nodeMetas : List NodeMeta) (node : GNode) :
    List (String × StateField) :=
  match metaFor nodeMetas node with
  | none => []
  | some meta =>
    (normalizePorts meta.inputs).map fun port =>
      let target := normalizeBinding (bindingFor node.input_bindings port.name) port.name
      (target, StateField.mk target port.type port.default)

/-- The full ordered write sequence of the `inferInputFields` walk. -/
def inputWrites (nodes : List GNode) (nodeMetas : List NodeMeta) :
    List (String × StateField) :=
  nodes.flatMap (inputPortWrites nodeMetas)

/-- `inferInputFields` from App.tsx: like the full walk but over input
ports only, dropping any target in `HIDDEN_INIT_FIELDS` before insertion,
with the fallback schema (`messages`/`task`) when empty. -/
def inferInputFields (nodes : List GNode) (nodeMetas : List NodeMeta) : List StateField :=
  let fields := (inputWrites nodes nodeMetas).foldl
    (fun fs p => if HIDDEN_INIT_FIELDS.contains p.1 then fs else insertField fs p.1 p.2) []
  let fields :=
    if fields.isEmpty then
      [("messages", StateField.mk "messages" "list" (.jarr [])),
       ("task", StateField.mk "task" "str" (.jstr ""))]
    else fields
  fields.map Prod.snd

/-! ## Initial-State Payload Builder (`buildInitialState`) -/

/-- A raw per-field form value (`initialStateValues[name]`): missing keys
are `undefined`; values may be strings, booleans, or structured values
seeded from defaults. -/
inductive RawVal where
  | rabsent
  | rnull
  | rbool (b : Bool)
  | rstr (s : String)
  | rjson (v : JVal)

/-- `raw === '' || raw === null || raw === undefined`. -/
def rawEmpty : RawVal → Bool
  | .rstr s => s == ""
  | .rnull => true
  | .rabsent => true
  | _ => false

/-- Passing a raw value through into the payload unchanged
(`state[field.name] = raw`). `undefined`/`null` raws are mapped to JSON
null; in the builder they are filtered out by `rawEmpty` before this is
reached. -/
def rawToJVal : RawVal → JVal
  | .rstr s => .jstr s
  | .rbool b => .jbool b
  | .rjson v => v
  | .rnull => .jnull
  | .rabsent => .jnull

/-- The single-entry conversation wrap for unparseable `messages` text:
`[{role: 'user', content: raw}]`. -/
def wrapMessages (raw : String) : JVal :=
  .jarr [.jobj [("role", .jstr "user"), ("content", .jstr raw)]]

/-- `const raw = initialStateValues[field.name]` (missing key =
`undefined`). -/
def rawOf (values : List (String × RawVal)) (field : StateField) : RawVal :=
  (values.lookup field.name).getD .rabsent

/-- One iteration of the `for (const field of inferredInputFields)` loop in
`buildInitialState`. `jsonParse` models the `JSON.parse` builtin (`none` =
exception) and `jsNumber` models `Number` (`none` = `NaN`). The
accumulator carries the payload object under construction and the
`messagesProvided` flag; an `.error` models the early `return {error}`. -/
def processField (jsonParse : String → Option JVal) (jsNumber : RawVal → Option Int)
    (values : List (String × RawVal))
    (acc : List (String × JVal) × Bool) (field : StateField) :
    Except String (List (String × JVal) × Bool) :=
  if field.type == "bool" then
    match rawOf values field with
    | .rbool b => .ok (objSet acc.1 field.name (.jbool b), acc.2)
    | _ => .ok acc
  else if field.type == "int" || field.type == "float" then
    if rawEmpty (rawOf values field) then .ok acc
    else
      match jsNumber (rawOf values field) with
      | none => .error ("Field '" ++ field.name ++ "' expects a number")
      | some n => .ok (objSet acc.1 field.name (.jnum n), acc.2)
  else if field.type == "list" || field.type == "dict" || field.type == "tuple" then
    if rawEmpty (rawOf values field) then .ok acc
    else
      match rawOf values field with
      | .rstr s =>
        if field.name == "messages" then
          match jsonParse s with
          | some v => .ok (objSet acc.1 field.name v, true)
          | none => .ok (objSet acc.1 field.name (wrapMessages s), true)
        else
          match jsonParse s with
          | some v =>
            .ok (objSet acc.1 field.name v,
              if field.name == "messages" then true else acc.2)
          | none => .error ("Field '" ++ field.name ++ "' expects JSON")
      | _ =>
        .ok (objSet acc.1 field.name (rawToJVal (rawOf values field)),
          if field.name == "messages" then true else acc.2)
  else
    if rawEmpty (rawOf values field) then .ok acc
    else
      .ok (objSet acc.1 field.name (rawToJVal (rawOf values field)),
        if field.name == "messages" then true else acc.2)

/-- The per-field loop of `buildInitialState` from a given accumulator:
fields in schema order; an error is the early `return {error}` and aborts
the rest of the loop. -/
def buildLoopAux (jsonParse : String → Option JVal) (jsNumber : RawVal → Option Int)
    (values : List (String × RawVal)) :
    List (String × JVal) × Bool → List StateField →
    Except String (List (String × JVal) × Bool)
  | acc, [] => .ok acc
  | acc, field :: rest =>
    match processField jsonParse jsNumber values acc field with
    | .error e => .error e
    | .ok acc' => buildLoopAux jsonParse jsNumber values acc' rest

/-- The whole per-field loop of `buildInitialState`: starts from the empty
payload with `messagesProvided = false`. -/
def buildLoop (jsonParse : String → Option JVal) (jsNumber : RawVal → Option Int)
    (fields : List StateField) (values : List (String × RawVal)) :
    Except String (List (String × JVal) × Bool) :=
  buildLoopAux jsonParse jsNumber values ([], false) fields

/-- JavaScript truthiness of the `workflowId` state variable
(`string | null`). -/
def truthyId : Option String → Bool
  | none => false
  | some s => !(s == "")

/-- The result record of `buildInitialState`:
`{ state?: Record<string, any>; error?: string }`. -/
structure BuildOut where
  state? : Option (List (String × JVal))
  error? : Option String

/-- `buildInitialState` from App.tsx: run the per-field loop, then the
cross-run reuse substitution (`!messagesProvided && hasMessagesField &&
workflowId`, then `reuse && Array.isArray(lastMessages) &&
lastMessages.length > 0`), returning `{error}` on failure and `{state}`
on success. The reuse toggle map and last-conversation map are keyed by
workflow id; a missing reuse entry is `undefined`, hence `!!` gives
`false`. -/
def buildInitialState (jsonParse : String → Option JVal) (jsNumber : RawVal → Option Int)
    (fields : List StateField) (values : List (String × RawVal))
    (workflowId : Option String)
    (reuseMessagesByWorkflow : List (String × Bool))
    (lastMessagesByWorkflow : List (String × JVal)) : BuildOut :=
  let hasMessagesField := fields.any fun f => f.name == "messages"
  match buildLoop jsonParse jsNumber fields values with
  | .error e => ⟨none, some e⟩
  | .ok (st, messagesProvided) =>
    if !messagesProvided && hasMessagesField && truthyId workflowId then
      let wid := workflowId.getD ""
      let reuse := (reuseMessagesByWorkflow.lookup wid).getD false
      let lastMessages := lastMessagesByWorkflow.lookup wid
      if reuse then
        match lastMessages with
        | some (.jarr ms) =>
          if 0 < ms.length then ⟨some (objSet st "messages" (.jarr ms)), none⟩
          else ⟨some st, none⟩
        | _ => ⟨some st, none⟩
      else ⟨some st, none⟩
    else ⟨some st, none⟩

/-! ## Execution Event Reconciler (`ws.onmessage`) -/

/-- A canvas node as the reconciler sees it: its `data.status` field and
its `style.backgroundColor`. -/
structure VNode where
  id : String
  status : Option JVal
  bg : Option String

/-- A log projection entry `{timestamp, type, message}`. -/
structure LogEntry where
  timestamp : String
  type : String
  message : String

/-- A trace/tool projection entry `{timestamp, event, data}`. -/
structure TraceEvent where
  timestamp : String
  event : String
  data : JVal

/-- The reconciled view model owned by the session manager. -/
structure Model where
  nodes : List VNode
  logs : List LogEntry
  isRunning : Bool
  traceEvents : List TraceEvent
  toolEvents : List TraceEvent
  lastMessagesByWorkflow : List (String × JVal)

/-- An inbound stream message, keyed by its `type` discriminant. -/
inductive WsMsg where
  | node_update (data : List (String × JVal))
  | status (s : String)
  | log (message : String)
  | state_update (data : Option JVal)
  | trace (event : String) (data : Option JVal)

/-- `msg.data || {}`. -/
def jsOrEmptyObj : Option JVal → JVal
  | none => .jobj []
  | some v => if jsTruthy v then v else .jobj []

/-- One step of the `ws.onmessage` handler on an already-parsed message.
`wid` is the captured `workflowId` and `ts` the local receipt timestamp
(`new Date().toLocaleTimeString()`). -/
def applyMsg (wid : Option String) (ts : String) (m : Model) : WsMsg → Model
  | .node_update data =>
    { m with nodes := m.nodes.map fun n =>
        match data.lookup n.id with
        | some v => if jsTruthy v then { n with status := some v } else n
        | none => n }
  | .status s =>
    let m := { m with logs := m.logs ++ [⟨ts, "status", "Workflow " ++ s⟩] }
    if s == "running" then
      { m with isRunning := true,
               nodes := m.nodes.map fun n => { n with bg := some "#fff" } }
    else if s == "completed" || s == "stopped" || s == "idle" || s == "error" then
      { m with isRunning := false,
               nodes := m.nodes.map fun n => { n with status := none } }
    else m
  | .log message =>
    { m with logs := m.logs ++ [⟨ts, "log", message⟩] }
  | .state_update data =>
    let state := jsOrEmptyObj data
    if truthyId wid then
      match objGet state "messages" with
      | some (.jarr ms) =>
        { m with lastMessagesByWorkflow :=
            objSet m.lastMessagesByWorkflow (wid.getD "") (.jarr ms) }
      | _ => m
    else m
  | .trace event data =>
    let d := jsOrEmptyObj data
    let m :=
      if event == "llm_token" then m
      else { m with traceEvents := m.traceEvents ++ [⟨ts, event, d⟩] }
    if event == "tool_call" || event == "tool_result" then
      { m with toolEvents := m.toolEvents ++ [⟨ts, event, d⟩] }
    else m

/-- Apply a sequence of (receipt timestamp, message) pairs in receipt
order. -/
def applyMsgs (wid : Option String) (msgs : List (String × WsMsg)) (m : Model) : Model :=
  msgs.foldl (fun acc p => applyMsg wid p.1 acc p.2) m

/-! ## Chat sessions -/

/-- A chat message `{role, content}`. -/
structure ChatMessage where
  role : String
  content : String
deriving DecidableEq

/-- A chat session. The pending generated-graph proposal is kept abstract. -/
structure ChatSession where
  id : String
  title : String
  messages : List ChatMessage
  generatedWorkflow : Option JVal

/-- `deleteChatSession` from App.tsx, as a pure function of the previous
session list, the active session id, the id to delete, and the fresh id
minted for the replacement session (`session-${Date.now()}`). Returns the
new session list and the new active session id. -/
def deleteChatSession (freshId : String) (prev : List ChatSession)
    (activeChatSessionId : String) (id : String) : List ChatSession × String :=
  match prev.filter (fun s => !(s.id == id)) with
  | [] => ([ChatSession.mk freshId "Session 1" [] none], freshId)
  | s :: rest =>
    if activeChatSessionId == id then (s :: rest, s.id)
    else (s :: rest, activeChatSessionId)

/-! ## Persistence hydration -/

/-- The persisted storage slots read during hydration (`localStorage`
values; `none` = absent). -/
structure Storage where
  nodes : Option String
  edges : Option String
  workflowId : Option String
  chatSessions : Option String
  activeChatSessionId : Option String
  lastRunMessages : Option String
  reuseMessages : Option String

/-- The component state produced by the hydration pass, at the JSON level
(the source applies no further decoding to the parsed records). A
`workflowId` of `none` means no stored id was found and a fresh one is
being requested from the backend. -/
structure HydratedState where
  nodes : JVal
  edges : JVal
  workflowId : Option String
  chatSessions : JVal
  activeChatSessionId : String
  lastMessagesByWorkflow : JVal
  reuseMessagesByWorkflow : JVal

/-- `if (stored) { try { parse } catch { removeItem } }` for one slot:
the hydrated value (`none` = keep the component default) and the updated
slot contents (cleared exactly on a parse failure). A stored empty string
is falsy, so it is skipped and its slot untouched. -/
def loadSlot (parse : String → Option JVal) (slot : Option String) :
    Option JVal × Option String :=
  match slot with
  | none => (none, none)
  | some raw =>
    if raw == "" then (none, some raw)
    else
      match parse raw with
      | some v => (some v, some raw)
      | none => (none, none)

/-- The hydration pass of the startup effect in App.tsx: each record is
loaded independently; a record that fails `JSON.parse` is discarded and
its slot cleared without affecting the others. Chat sessions are
additionally required to be a non-empty array to replace the default; the
active session id and workflow id are used raw (truthiness-guarded, not
parsed). A `workflowId` of `none` in the result means no stored id was
found and a fresh one is being requested from the backend. -/
def hydrate (parse : String → Option JVal) (store : Storage) :
    HydratedState × Storage :=
  (⟨(match (loadSlot parse store.nodes).1 with | some v => v | none => .jarr []),
    (match (loadSlot parse store.edges).1 with | some v => v | none => .jarr []),
    (match store.workflowId with
     | some s => if s == "" then none else some s
     | none => none),
    (match (loadSlot parse store.chatSessions).1 with
     | some (.jarr l) => if 0 < l.length then .jarr l else .jarr []
     | _ => .jarr []),
    (match store.activeChatSessionId with
     | some s => if s == "" then "" else s
     | none => ""),
    (match (loadSlot parse store.lastRunMessages).1 with | some v => v | none => .jobj []),
    (match (loadSlot parse store.reuseMessages).1 with | some v => v | none => .jobj [])⟩,
   { store with
     nodes := (loadSlot parse store.nodes).2,
     edges := (loadSlot parse store.edges).2,
     chatSessions := (loadSlot parse store.chatSessions).2,
     lastRunMessages := (loadSlot parse store.lastRunMessages).2,
     reuseMessages := (loadSlot parse store.reuseMessages).2 })

/-! ## General lemmas about the object model -/

theorem or_none_eq {α : Type} (o : Option α) : o.or none = o := by
  cases o <;> rfl

theorem none_or_eq {α : Type} (o : Option α) : Option.or none o = o := by
  cases o <;> rfl

theorem some_or_eq {α : Type} (a : α) (o : Option α) : (some a).or o = some a := rfl

theorem lookup_objSet_self {α : Type} (l : List (String × α)) (k : String) (v : α) :
    (objSet l k v).lookup k = some v := by
  induction l with
  | nil => simp [objSet, List.lookup]
  | cons p rest ih =>
    obtain ⟨k', v'⟩ := p
    by_cases h : k' = k
    · subst h; simp [objSet, List.lookup]
    · have h1 : (k' == k) = false := beq_eq_false_iff_ne.mpr h
      have h2 : (k == k') = false := beq_eq_false_iff_ne.mpr (Ne.symm h)
      simp only [objSet, h1, if_false, List.lookup, h2, ih]

theorem lookup_objSet_ne {α : Type} (l : List (String × α)) (k t : String) (v : α)
    (h : t ≠ k) : (objSet l k v).lookup t = l.lookup t := by
  have htk : (t == k) = false := beq_eq_false_iff_ne.mpr h
  induction l with
  | nil => simp [objSet, List.lookup, htk]
  | cons p rest ih =>
    obtain ⟨k', v'⟩ := p
    by_cases hk : k' = k
    · subst hk
      simp only [objSet, beq_self_eq_true, if_true, List.lookup, htk]
    · have h1 : (k' == k) = false := beq_eq_false_iff_ne.mpr hk
      by_cases ht : t = k'
      · subst ht
        simp only [objSet, h1, if_false, List.lookup, beq_self_eq_true]
      · have h2 : (t == k') = false := beq_eq_false_iff_ne.mpr ht
        simp only [objSet, h1, if_false, List.lookup, h2, ih]

theorem lookup_append_single {α : Type} (l : List (String × α)) (k t : String) (v : α) :
    (l ++ [(k, v)]).lookup t = (l.lookup t).or (if t == k then some v else none) := by
  induction l with
  | nil =>
    by_cases h : t = k
    · subst h; simp [List.lookup]
    · have h1 : (t == k) = false := beq_eq_false_iff_ne.mpr h
      simp [List.lookup, h1]
  | cons p rest ih =>
    obtain ⟨k', v'⟩ := p
    by_cases h : t = k'
    · subst h; simp [List.lookup, some_or_eq]
    · have h1 : (t == k') = false := beq_eq_false_iff_ne.mpr h
      simp only [List.cons_append, List.lookup, h1, List.append_eq, ih]

theorem lookup_insertField (fs : List (String × StateField)) (k : String) (f : StateField)
    (t : String) :
    (insertField fs k f).lookup t =
      (fs.lookup t).or
        (if t == k then (if (fs.lookup k).isSome then none else some f) else none) := by
  unfold insertField
  cases h : fs.lookup k with
  | some v =>
    simp only [h, Option.isSome_some, if_true, if_pos]
    have : (if t == k then (none : Option StateField) else none) = none := by
      cases t == k <;> rfl
    rw [this, or_none_eq]
  | none =>
    rw [lookup_append_single]
    simp [h]

/-- First-writer-wins: after folding `insertField` over a write sequence,
the value recorded for key `t` is the value already present in the
accumulator, or else the first write for `t` in the sequence. -/
theorem lookup_foldl_insertField (ws : List (String × StateField))
    (init : List (String × StateField)) (t : String) :
    ((ws.foldl (fun fs p => insertField fs p.1 p.2) init).lookup t) =
      (init.lookup t).or ((ws.find? fun p => p.1 == t).map Prod.snd) := by
  induction ws generalizing init with
  | nil => simp [or_none_eq]
  | cons w ws ih =>
    simp only [List.foldl_cons]
    rw [ih, lookup_insertField]
    by_cases hw : w.1 = t
    · subst hw
      cases h : init.lookup w.1 with
      | some v => simp [List.find?, h, some_or_eq]
      | none => simp [List.find?, h, none_or_eq, some_or_eq]
    · have h1 : (t == w.1) = false := beq_eq_false_iff_ne.mpr (Ne.symm hw)
      have h2 : (w.1 == t) = false := beq_eq_false_iff_ne.mpr hw
      simp only [h1, Bool.false_eq_true, if_false, or_none_eq, List.find?, h2]

theorem foldl_insertField_ne_nil (ws : List (String × StateField))
    (init : List (String × StateField)) (hinit : init ≠ []) :
    ws.foldl (fun fs p => insertField fs p.1 p.2) init ≠ [] := by
  induction ws generalizing init with
  | nil => simpa using hinit
  | cons w ws ih =>
    simp only [List.foldl_cons]
    apply ih
    unfold insertField
    cases h : init.lookup w.1 with
    | some v => simpa using hinit
    | none => simp

theorem mem_foldl_insertField (ws : List (String × StateField))
    (init : List (String × StateField)) (p : String × StateField)
    (hp : p ∈ ws.foldl (fun fs q => insertField fs q.1 q.2) init) :
    p ∈ init ∨ p ∈ ws := by
  induction ws generalizing init with
  | nil => exact Or.inl (by simpa using hp)
  | cons w ws ih =>
    simp only [List.foldl_cons] at hp
    rcases ih _ hp with h | h
    · unfold insertField at h
      cases hl : init.lookup w.1 with
      | some v => rw [hl] at h; exact Or.inl h
      | none =>
        rw [hl] at h
        rcases List.mem_append.mp h with h' | h'
        · exact Or.inl h'
        · simp only [List.mem_singleton] at h'
          subst h'
          exact Or.inr (List.mem_cons_self _ _)
    · exact Or.inr (List.mem_cons_of_mem _ h)

/-- Every write the full-schema walk produces records a field whose `name`
equals its target key. -/
theorem stateWrites_name_eq (nodes : List GNode) (nodeMetas : List NodeMeta)
    (p : String × StateField) (hp : p ∈ stateWrites nodes nodeMetas) :
    p.2.name = p.1 := by
  unfold stateWrites at hp
  rcases List.mem_flatMap.mp hp with ⟨node, _, hmem⟩
  unfold statePortWrites at hmem
  cases h : metaFor nodeMetas node with
  | none => rw [h] at hmem; simp at hmem
  | some meta =>
    rw [h] at hmem
    rcases List.mem_append.mp hmem with h' | h' <;>
    · rcases List.mem_map.mp h' with ⟨port, _, hq⟩
      subst hq
      rfl

/-- Every write the input-schema walk produces records a field whose
`name` equals its target key. -/
theorem inputWrites_name_eq (nodes : List GNode) (nodeMetas : List NodeMeta)
    (p : String × StateField) (hp : p ∈ inputWrites nodes nodeMetas) :
    p.2.name = p.1 := by
  unfold inputWrites at hp
  rcases List.mem_flatMap.mp hp with ⟨node, _, hmem⟩
  unfold inputPortWrites at hmem
  cases h : metaFor nodeMetas node with
  | none => rw [h] at hmem; simp at hmem
  | some meta =>
    rw [h] at hmem
    rcases List.mem_map.mp hmem with ⟨port, _, hq⟩
    subst hq
    rfl

/-- Searching the final field list by `name` agrees with association-list
lookup by key, given the key/name agreement invariant. -/
theorem find?_map_snd (fs : List (String × StateField)) (t : String)
    (h : ∀ p ∈ fs, p.2.name = p.1) :
    (fs.map Prod.snd).find? (fun f => f.name == t) = fs.lookup t := by
  induction fs with
  | nil => simp [List.lookup]
  | cons p rest ih =>
    obtain ⟨k, f⟩ := p
    have hk : f.name = k := h (k, f) (List.mem_cons_self _ _)
    by_cases ht : k = t
    · subst ht; simp [List.find?, List.lookup, hk]
    · have h1 : (f.name == t) = false := by simp [hk, ht]
      have h2 : (t == k) = false := by simp [Ne.symm ht]
      simp only [List.map_cons, List.find?, h1, List.lookup, h2]
      exact ih fun q hq => h q (List.mem_cons_of_mem _ hq)

/-- The recorded field for a name in the full schema is determined by the
first write for that name in the fixed traversal order. -/
theorem inferStateFields_find_eq (nodes : List GNode) (nodeMetas : List NodeMeta)
    (t : String) (p : String × StateField)
    (h : (stateWrites nodes nodeMetas).find? (fun q => q.1 == t) = some p) :
    (inferStateFields nodes nodeMetas).find? (fun f => f.name == t) = some p.2 := by
  have hmem : p ∈ stateWrites nodes nodeMetas := List.mem_of_find?_eq_some h
  have hinv : ∀ q ∈ (stateWrites nodes nodeMetas).foldl
      (fun fs q => insertField fs q.1 q.2) [], q.2.name = q.1 := by
    intro q hq
    rcases mem_foldl_insertField _ _ _ hq with h' | h'
    · simp at h'
    · exact stateWrites_name_eq _ _ _ h'
  have hne : (stateWrites nodes nodeMetas).foldl
      (fun fs q => insertField fs q.1 q.2) [] ≠ [] := by
    cases hws : stateWrites nodes nodeMetas with
    | nil => rw [hws] at hmem; simp at hmem
    | cons w ws =>
      simp only [List.foldl_cons]
      apply foldl_insertField_ne_nil
      simp [insertField, List.lookup]
  have hE : ((stateWrites nodes nodeMetas).foldl
      (fun fs q => insertField fs q.1 q.2) []).isEmpty = false := by
    cases hf : (stateWrites nodes nodeMetas).foldl
      (fun fs q => insertField fs q.1 q.2) [] with
    | nil => exact absurd hf hne
    | cons a l => simp
  simp only [inferStateFields, hE, Bool.false_eq_true, if_false]
  rw [find?_map_snd _ _ hinv, lookup_foldl_insertField]
  simp [h]

/-- C5: In schema inference, field identity is first-writer-wins: the
recorded type and default for a canonical name are those of the first
port visited for it in the fixed traversal order (nodes in collection
order, inputs before outputs), later conflicting encounters are ignored,
and any second graph whose traversal has the same first writer for that
name (e.g. the other ports reordered) records the same field. -/
theorem c5_first_writer_wins
    (nodes₁ : List GNode) (metas₁ : List NodeMeta)
    (nodes₂ : List GNode) (metas₂ : List NodeMeta)
    (t : String) (p : String × StateField)
    (h₁ : (stateWrites nodes₁ metas₁).find? (fun q => q.1 == t) = some p)
    (h₂ : (stateWrites nodes₂ metas₂).find? (fun q => q.1 == t) = some p) :
    (inferStateFields nodes₁ metas₁).find? (fun f => f.name == t) = some p.2 ∧
    (inferStateFields nodes₂ metas₂).find? (fun f => f.name == t) = some p.2 :=
  ⟨inferStateFields_find_eq _ _ _ _ h₁, inferStateFields_find_eq _ _ _ _ h₂⟩

/-- Witness for C5: a node with an input port `x : int` and an output port
`x : str` (conflicting types for the same name) records `int`; appending
a second node writing `x : list` (a reordering of the non-first ports)
does not change the outcome. -/
theorem c5_first_writer_wins_witness :
    (inferStateFields
        [⟨"n1", some "T", none, none, none⟩]
        [⟨"T", some [.pobj "x" (some "int") (some (.jnum 1))],
              some [.pobj "x" (some "str") (some (.jstr "s"))]⟩]).find?
      (fun f => f.name == "x") = some (StateField.mk "x" "int" (.jnum 1)) ∧
    (inferStateFields
        [⟨"n1", some "T", none, none, none⟩, ⟨"n2", some "U", none, none, none⟩]
        [⟨"T", some [.pobj "x" (some "int") (some (.jnum 1))],
              some [.pobj "x" (some "str") (some (.jstr "s"))]⟩,
         ⟨"U", some [.pobj "x" (some "list") (some (.jarr []))], none⟩]).find?
      (fun f => f.name == "x") = some (StateField.mk "x" "int" (.jnum 1)) :=
  c5_first_writer_wins _ _ _ _ "x" ("x", StateField.mk "x" "int" (.jnum 1))
    (by rfl) (by rfl)

theorem mem_foldl_inputStep (ws : List (String × StateField))
    (init : List (String × StateField)) (p : String × StateField)
    (hp : p ∈ ws.foldl
      (fun fs q => if HIDDEN_INIT_FIELDS.contains q.1 then fs else insertField fs q.1 q.2)
      init) :
    p ∈ init ∨ (p ∈ ws ∧ HIDDEN_INIT_FIELDS.contains p.1 = false) := by
  induction ws generalizing init with
  | nil => exact Or.inl (by simpa using hp)
  | cons w ws ih =>
    simp only [List.foldl_cons] at hp
    cases hc : HIDDEN_INIT_FIELDS.contains w.1 with
    | true =>
      rw [hc] at hp
      simp only [if_true] at hp
      rcases ih _ hp with h | h
      · exact Or.inl h
      · exact Or.inr ⟨List.mem_cons_of_mem _ h.1, h.2⟩
    | false =>
      rw [hc] at hp
      simp only [Bool.false_eq_true, if_false] at hp
      rcases ih _ hp with h | h
      · unfold insertField at h
        cases hl : init.lookup w.1 with
        | some v => rw [hl] at h; exact Or.inl h
        | none =>
          rw [hl] at h
          rcases List.mem_append.mp h with h' | h'
          · exact Or.inl h'
          · simp only [List.mem_singleton] at h'
            subst h'
            exact Or.inr ⟨List.mem_cons_self _ _, hc⟩
      · exact Or.inr ⟨List.mem_cons_of_mem _ h.1, h.2⟩

/-- C6: names on the fixed denylist never appear in the inferred input
schema — even when some port's binding normalizes to them — while for
every such name there is a graph (with the same registry) whose full
schema does contain it and whose input schema does not. -/
theorem c6_denylist_exclusion (name : String) (hname : name ∈ HIDDEN_INIT_FIELDS) :
    (∀ nodes nodeMetas, ∀ f ∈ inferInputFields nodes nodeMetas, f.name ≠ name) ∧
    (∃ nodes nodeMetas,
      (∃ f ∈ inferStateFields nodes nodeMetas, f.name = name) ∧
      ∀ f ∈ inferInputFields nodes nodeMetas, f.name ≠ name) := by
  have hc : HIDDEN_INIT_FIELDS.contains name = true := List.elem_eq_true_of_mem hname
  have hmt : name ≠ "messages" ∧ name ≠ "task" := by
    constructor
    · rintro rfl; exact absurd hname (by decide)
    · rintro rfl; exact absurd hname (by decide)
  have main : ∀ nodes nodeMetas, ∀ f ∈ inferInputFields nodes nodeMetas, f.name ≠ name := by
    intro nodes nodeMetas f hf
    simp only [inferInputFields] at hf
    by_cases hE : ((inputWrites nodes nodeMetas).foldl
        (fun fs p => if HIDDEN_INIT_FIELDS.contains p.1 then fs else insertField fs p.1 p.2)
        []).isEmpty
    · rw [if_pos hE] at hf
      simp only [List.map_cons, List.map_nil, List.mem_cons, List.mem_singleton,
        List.not_mem_nil, or_false] at hf
      rcases hf with hf | hf <;> subst hf
      · exact Ne.symm hmt.1
      · exact Ne.symm hmt.2
    · rw [if_neg hE] at hf
      rcases List.mem_map.mp hf with ⟨p, hp, hpf⟩
      rcases mem_foldl_inputStep _ _ _ hp with h | h
      · simp at h
      · have hname_eq : f.name = p.1 := by
          rw [← hpf]; exact inputWrites_name_eq _ _ _ h.1
        intro hcontra
        have hpn : p.1 = name := by rw [← hname_eq, hcontra]
        have hfalse := h.2
        rw [hpn, hc] at hfalse
        simp at hfalse
  refine ⟨main, ?_⟩
  refine ⟨[⟨"n1", some "T", none, none, none⟩],
          [⟨"T", some [.pstr name], none⟩], ?_, main _ _⟩
  refine ⟨StateField.mk name "str" (.jstr ""), ?_, rfl⟩
  show StateField.mk name "str" (.jstr "") ∈
    inferStateFields [⟨"n1", some "T", none, none, none⟩] [⟨"T", some [.pstr name], none⟩]
  have : inferStateFields [⟨"n1", some "T", none, none, none⟩]
      [⟨"T", some [.pstr name], none⟩] = [StateField.mk name "str" (.jstr "")] := rfl
  rw [this]
  exact List.mem_singleton.mpr rfl

/-- Witness for C6 at the denylist name `round`. -/
theorem c6_denylist_exclusion_witness :
    (∀ nodes nodeMetas, ∀ f ∈ inferInputFields nodes nodeMetas, f.name ≠ "round") ∧
    (∃ nodes nodeMetas,
      (∃ f ∈ inferStateFields nodes nodeMetas, f.name = "round") ∧
      ∀ f ∈ inferInputFields nodes nodeMetas, f.name ≠ "round") :=
  c6_denylist_exclusion "round" (by simp [HIDDEN_INIT_FIELDS])

/-! ## Binding normalization on whitespace-only strings (C10) -/

theorem jsTrim_eq_empty (s : String) (h : ∀ c ∈ s.toList, isJsWs c = true) :
    jsTrim s = "" := by
  unfold jsTrim
  rw [List.dropWhile_eq_nil_iff.mpr h]
  rfl

theorem jsStartsWith_state_eq_false (s : String) (h : ∀ c ∈ s.toList, isJsWs c = true) :
    jsStartsWith s "state." = false := by
  unfold jsStartsWith
  cases hs : s.toList with
  | nil => rfl
  | cons c cs =>
    have hc : isJsWs c = true := h c (hs ▸ List.mem_cons_self c cs)
    have hne : ('s' == c) = false := by
      cases hcc : ('s' == c)
      · rfl
      · have : c = 's' := (beq_iff_eq.mp hcc).symm
        rw [this] at hc
        exact absurd hc (by decide)
    show List.isPrefixOf ('s' :: "tate.".toList) (c :: cs) = false
    simp [List.isPrefixOf, hne]

/-- C10: a non-empty whitespace-only binding string is truthy, so it does
not fall back to the port name; it is trimmed to the empty string, and the
inferred schema can then contain a field whose name is the empty string.
Only the falsy binding values (empty string, null, undefined, 0, false)
fall back to the port name. -/
theorem c10_whitespace_binding (s fallback : String)
    (hne : (s == "") = false) (hws : ∀ c ∈ s.toList, isJsWs c = true) :
    normalizeBinding (.bstr s) fallback = "" ∧
    (inferStateFields
      [⟨"n1", some "T", none, some [("x", .bstr " ")], none⟩]
      [⟨"T", some [.pstr "x"], none⟩]).map (fun f => f.name) = [""] ∧
    normalizeBinding .absent fallback = fallback ∧
    normalizeBinding .bnull fallback = fallback ∧
    normalizeBinding (.bstr "") fallback = fallback ∧
    normalizeBinding (.bnum 0) fallback = fallback ∧
    normalizeBinding (.bbool false) fallback = fallback := by
  refine ⟨?_, by rfl, rfl, rfl, rfl, rfl, rfl⟩
  simp only [normalizeBinding, hne, Bool.false_eq_true, if_false,
    jsStartsWith_state_eq_false s hws]
  exact jsTrim_eq_empty s hws

/-- Witness for C10 at the one-space binding string. -/
theorem c10_whitespace_binding_witness :
    normalizeBinding (.bstr " ") "x" = "" ∧
    (inferStateFields
      [⟨"n1", some "T", none, some [("x", .bstr " ")], none⟩]
      [⟨"T", some [.pstr "x"], none⟩]).map (fun f => f.name) = [""] ∧
    normalizeBinding .absent "x" = "x" ∧
    normalizeBinding .bnull "x" = "x" ∧
    normalizeBinding (.bstr "") "x" = "x" ∧
    normalizeBinding (.bnum 0) "x" = "x" ∧
    normalizeBinding (.bbool false) "x" = "x" :=
  c10_whitespace_binding " " "x" (by decide) (by decide)

/-! ## Lemmas about the payload-builder loop -/

theorem buildLoopAux_append (jp : String → Option JVal) (jn : RawVal → Option Int)
    (values : List (String × RawVal)) (acc : List (String × JVal) × Bool)
    (l₁ l₂ : List StateField) :
    buildLoopAux jp jn values acc (l₁ ++ l₂) =
      match buildLoopAux jp jn values acc l₁ with
      | .error e => .error e
      | .ok acc' => buildLoopAux jp jn values acc' l₂ := by
  induction l₁ generalizing acc with
  | nil => simp [buildLoopAux]
  | cons f l₁ ih =>
    simp only [List.cons_append, buildLoopAux]
    cases processField jp jn values acc f with
    | error e => rfl
    | ok acc' => exact ih acc'

/-- Every successful per-field step either leaves the accumulator alone or
writes exactly the key `field.name`, and never resets the
`messagesProvided` flag. -/
theorem processField_ok_shape (jp : String → Option JVal) (jn : RawVal → Option Int)
    (values : List (String × RawVal)) (acc : List (String × JVal) × Bool)
    (field : StateField) (acc' : List (String × JVal) × Bool)
    (h : processField jp jn values acc field = .ok acc') :
    acc' = acc ∨
      ∃ v, acc'.1 = objSet acc.1 field.name v ∧ (acc'.2 = acc.2 ∨ acc'.2 = true) := by
  unfold processField at h
  repeat' split at h
  all_goals first
    | exact Except.noConfusion h
    | (cases h; exact Or.inl rfl)
    | (cases h; exact Or.inr ⟨_, rfl, Or.inl rfl⟩)
    | (cases h; exact Or.inr ⟨_, rfl, Or.inr rfl⟩)

theorem processField_ok_preserves (jp : String → Option JVal) (jn : RawVal → Option Int)
    (values : List (String × RawVal)) (acc : List (String × JVal) × Bool)
    (field : StateField) (acc' : List (String × JVal) × Bool) (k : String)
    (hk : field.name ≠ k)
    (h : processField jp jn values acc field = .ok acc') :
    acc'.1.lookup k = acc.1.lookup k ∧ (acc.2 = true → acc'.2 = true) := by
  rcases processField_ok_shape jp jn values acc field acc' h with rfl | ⟨v, h1, h2⟩
  · exact ⟨rfl, fun hm => hm⟩
  · refine ⟨by rw [h1]; exact lookup_objSet_ne _ _ _ _ (Ne.symm hk), ?_⟩
    intro hm
    rcases h2 with h2 | h2
    · rw [h2]; exact hm
    · exact h2

theorem buildLoopAux_preserves (jp : String → Option JVal) (jn : RawVal → Option Int)
    (values : List (String × RawVal)) (fields : List StateField)
    (acc acc' : List (String × JVal) × Bool) (k : String)
    (hk : ∀ f ∈ fields, f.name ≠ k)
    (h : buildLoopAux jp jn values acc fields = .ok acc') :
    acc'.1.lookup k = acc.1.lookup k ∧ (acc.2 = true → acc'.2 = true) := by
  induction fields generalizing acc with
  | nil =>
    unfold buildLoopAux at h
    cases h
    exact ⟨rfl, fun hm => hm⟩
  | cons f fs ih =>
    unfold buildLoopAux at h
    cases hp : processField jp jn values acc f with
    | error e => rw [hp] at h; exact Except.noConfusion h
    | ok acc₁ =>
      rw [hp] at h
      have h1 := processField_ok_preserves jp jn values acc f acc₁ k
        (hk f (List.mem_cons_self _ _)) hp
      have h2 := ih acc₁ (fun g hg => hk g (List.mem_cons_of_mem _ hg)) h
      exact ⟨h2.1.trans h1.1, fun hm => h2.2 (h1.2 hm)⟩

/-- C4: the builder returns either a payload or a field-scoped error,
never both: on every input the result is exactly `{error}` with no state
(not even a partial one) or exactly `{state}` with no error. -/
theorem c4_no_partial_payload (jp : String → Option JVal) (jn : RawVal → Option Int)
    (fields : List StateField) (values : List (String × RawVal))
    (wid : Option String) (reuseMap : List (String × Bool))
    (lastMap : List (String × JVal)) :
    (∃ e, buildInitialState jp jn fields values wid reuseMap lastMap =
        ⟨none, some e⟩) ∨
    (∃ st, buildInitialState jp jn fields values wid reuseMap lastMap =
        ⟨some st, none⟩) := by
  unfold buildInitialState
  cases h : buildLoop jp jn fields values with
  | error e => exact Or.inl ⟨e, rfl⟩
  | ok acc =>
    obtain ⟨st, mp⟩ := acc
    right
    dsimp only
    repeat' split
    all_goals exact ⟨_, rfl⟩

/-- Reduction of the per-field step on a list/dict/tuple field whose raw
value is non-empty text. -/
theorem processField_structured (jp : String → Option JVal) (jn : RawVal → Option Int)
    (values : List (String × RawVal)) (field : StateField) (s : String)
    (st : List (String × JVal)) (mp : Bool)
    (hty : field.type = "list" ∨ field.type = "dict" ∨ field.type = "tuple")
    (hraw : rawOf values field = .rstr s)
    (hs : (s == "") = false) :
    processField jp jn values (st, mp) field =
      match jp s with
      | some v =>
        .ok (objSet st field.name v, if field.name == "messages" then true else mp)
      | none =>
        if field.name == "messages" then
          .ok (objSet st field.name (wrapMessages s), true)
        else .error ("Field '" ++ field.name ++ "' expects JSON") := by
  have hb : (field.type == "bool") = false := by
    rcases hty with h | h | h <;> rw [h] <;> rfl
  have hif : (field.type == "int" || field.type == "float") = false := by
    rcases hty with h | h | h <;> rw [h] <;> rfl
  have hl : (field.type == "list" || field.type == "dict" || field.type == "tuple") = true := by
    rcases hty with h | h | h <;> rw [h] <;> rfl
  have hre : rawEmpty (.rstr s) = false := hs
  unfold processField
  rw [hb, hif, hl, hraw, hre]
  cases hn : (field.name == "messages") <;> cases hjp : jp s <;> simp [hn, hjp]

/-- C2: for a list/dict/tuple-typed field whose raw value is non-empty
text, the builder stores the JSON-parsed value on success; on parse
failure it fails the whole build with an error naming the field — unless
the field is canonically named `messages`, in which case the build does
not fail and the payload's `messages` value is the single-entry wrapped
conversation turn `[{role: 'user', content: <raw text>}]`. -/
theorem c2_structured_field_parse
    (jp : String → Option JVal) (jn : RawVal → Option Int)
    (values : List (String × RawVal)) (field : StateField) (s : String)
    (st : List (String × JVal)) (mp : Bool) (pre post : List StateField)
    (hty : field.type = "list" ∨ field.type = "dict" ∨ field.type = "tuple")
    (hraw : rawOf values field = .rstr s)
    (hs : (s == "") = false)
    (hpre : buildLoop jp jn pre values = .ok (st, mp)) :
    (∀ v, jp s = some v →
      processField jp jn values (st, mp) field =
        .ok (objSet st field.name v,
          if field.name == "messages" then true else mp)) ∧
    (jp s = none → field.name ≠ "messages" →
      ∀ wid reuseMap lastMap,
        buildInitialState jp jn (pre ++ field :: post) values wid reuseMap lastMap =
          ⟨none, some ("Field '" ++ field.name ++ "' expects JSON")⟩) ∧
    (jp s = none → field.name = "messages" →
      ∀ st₂ mp₂ wid reuseMap lastMap,
        (∀ g ∈ post, g.name ≠ "messages") →
        buildLoopAux jp jn values (objSet st "messages" (wrapMessages s), true) post =
          .ok (st₂, mp₂) →
        buildInitialState jp jn (pre ++ field :: post) values wid reuseMap lastMap =
          ⟨some st₂, none⟩ ∧
        st₂.lookup "messages" = some (wrapMessages s)) := by
  have hpre' : buildLoopAux jp jn values ([], false) pre = .ok (st, mp) := hpre
  refine ⟨?_, ?_, ?_⟩
  · intro v hv
    rw [processField_structured jp jn values field s st mp hty hraw hs, hv]
  · intro hjp hnm wid reuseMap lastMap
    have hpf : processField jp jn values (st, mp) field =
        .error ("Field '" ++ field.name ++ "' expects JSON") := by
      rw [processField_structured jp jn values field s st mp hty hraw hs, hjp]
      simp [beq_eq_false_iff_ne.mpr hnm]
    have hloop : buildLoop jp jn (pre ++ field :: post) values =
        .error ("Field '" ++ field.name ++ "' expects JSON") := by
      unfold buildLoop
      rw [buildLoopAux_append, hpre']
      show buildLoopAux jp jn values (st, mp) (field :: post) = _
      unfold buildLoopAux
      rw [hpf]
    simp [buildInitialState, hloop]
  · intro hjp hnm st₂ mp₂ wid reuseMap lastMap hpost hloop2
    have hpf : processField jp jn values (st, mp) field =
        .ok (objSet st "messages" (wrapMessages s), true) := by
      rw [processField_structured jp jn values field s st mp hty hraw hs, hjp]
      simp [hnm]
    have hloop : buildLoop jp jn (pre ++ field :: post) values = .ok (st₂, mp₂) := by
      unfold buildLoop
      rw [buildLoopAux_append, hpre']
      show buildLoopAux jp jn values (st, mp) (field :: post) = _
      unfold buildLoopAux
      rw [hpf]
      exact hloop2
    have hpres := buildLoopAux_preserves jp jn values post
      (objSet st "messages" (wrapMessages s), true) (st₂, mp₂) "messages" hpost hloop2
    have hmp₂ : mp₂ = true := hpres.2 rfl
    have hlk : st₂.lookup "messages" = some (wrapMessages s) := by
      rw [hpres.1]
      exact lookup_objSet_self _ _ _
    subst hmp₂
    refine ⟨?_, hlk⟩
    simp [buildInitialState, hloop]

/-- Witness for C2: raw text `hello` for the list-typed `messages` field,
with a parser that fails on it: the build succeeds and the payload's
`messages` is the wrapped single-entry turn. -/
theorem c2_structured_field_parse_witness :
    buildInitialState (fun _ => none) (fun _ => none)
        [StateField.mk "messages" "list" (.jarr [])] [("messages", .rstr "hello")]
        none [] [] =
      ⟨some [("messages", wrapMessages "hello")], none⟩ ∧
    ([("messages", wrapMessages "hello")] : List (String × JVal)).lookup "messages" =
      some (wrapMessages "hello") :=
  (c2_structured_field_parse (fun _ => none) (fun _ => none)
    [("messages", .rstr "hello")] (StateField.mk "messages" "list" (.jarr []))
    "hello" [] false [] [] (Or.inl rfl) rfl rfl rfl).2.2 rfl rfl
    [("messages", wrapMessages "hello")] true none [] []
    (fun g hg => absurd hg (List.not_mem_nil g)) rfl

/-- C1 (amended): the reuse substitution is keyed on the builder's
`messagesProvided` flag, which is set only by the string-typed and
list/dict/tuple-typed branches of the per-field loop. If that flag is
unset after the loop, the schema declares a `messages` field, the session
identifier is set and non-empty, its reuse toggle is enabled, and the
stored prior conversation for it is a non-empty array, then the payload's
`messages` value is exactly that prior conversation; if the flag is set,
or any of the other conditions fails, the loop's payload is returned with
no substitution. (A `messages` value supplied through a bool- or
int/float-typed field does not set the flag, so it does not suppress the
substitution — this is where the claim as stated fails.) -/
theorem c1_amended_reuse_substitution
    (jp : String → Option JVal) (jn : RawVal → Option Int)
    (fields : List StateField) (values : List (String × RawVal))
    (wid : Option String) (reuseMap : List (String × Bool))
    (lastMap : List (String × JVal))
    (st : List (String × JVal)) (mp : Bool)
    (hok : buildLoop jp jn fields values = .ok (st, mp)) :
    (∀ w ms, wid = some w → (w == "") = false → mp = false →
      (fields.any fun f => f.name == "messages") = true →
      (reuseMap.lookup w).getD false = true →
      lastMap.lookup w = some (.jarr ms) → ms ≠ [] →
      buildInitialState jp jn fields values wid reuseMap lastMap =
        ⟨some (objSet st "messages" (.jarr ms)), none⟩ ∧
      (objSet st "messages" (.jarr ms)).lookup "messages" = some (.jarr ms)) ∧
    ((mp = true ∨ (fields.any fun f => f.name == "messages") = false ∨
        truthyId wid = false ∨
        (reuseMap.lookup (wid.getD "")).getD false = false ∨
        (∀ ms, lastMap.lookup (wid.getD "") = some (.jarr ms) → ms = [])) →
      buildInitialState jp jn fields values wid reuseMap lastMap = ⟨some st, none⟩) := by
  constructor
  · intro w ms hw hwne hmp hhas hreuse hlast hms
    subst hw
    subst hmp
    have htr : truthyId (some w) = true := by simp [truthyId, hwne]
    have hlen : 0 < ms.length := List.length_pos.mpr hms
    refine ⟨?_, lookup_objSet_self _ _ _⟩
    simp only [buildInitialState, hok]
    simp [htr, hhas, hreuse, hlast, hlen]
  · intro hcond
    simp only [buildInitialState, hok]
    rcases hcond with hmp | hhas | htr | hreuse | hlast
    · subst hmp; simp
    · simp [hhas]
    · simp [htr]
    · by_cases hc : (!mp && (fields.any fun f => f.name == "messages") &&
          truthyId wid) = true
      · simp only [hc, if_true]
        simp [hreuse]
      · rw [Bool.not_eq_true] at hc
        simp [hc]
    · by_cases hc : (!mp && (fields.any fun f => f.name == "messages") &&
          truthyId wid) = true
      · simp only [hc, if_true]
        by_cases hr : (reuseMap.lookup (wid.getD "")).getD false = true
        · simp only [hr, if_true]
          cases hb : lastMap.lookup (wid.getD "") with
          | none => simp [hb]
          | some v =>
            cases v with
            | jarr ms =>
              have hnil : ms = [] := hlast ms hb
              subst hnil
              simp [hb]
            | jnull => simp [hb]
            | jbool b => simp [hb]
            | jnum n => simp [hb]
            | jstr s => simp [hb]
            | jobj fs => simp [hb]
        · rw [Bool.not_eq_true] at hr
          simp [hr]
      · rw [Bool.not_eq_true] at hc
        simp [hc]

/-- Witness for the amended C1: with a list-typed `messages` field, no
value supplied, reuse enabled for session `w` and a non-empty stored
prior conversation, the payload's `messages` is exactly that prior
conversation. -/
theorem c1_amended_reuse_substitution_witness :
    buildInitialState (fun _ => none) (fun _ => none)
        [StateField.mk "messages" "list" (.jarr [])] []
        (some "w") [("w", true)]
        [("w", .jarr [.jobj [("role", .jstr "user"), ("content", .jstr "hi")]])] =
      ⟨some (objSet [] "messages"
        (.jarr [.jobj [("role", .jstr "user"), ("content", .jstr "hi")]])), none⟩ ∧
    (objSet ([] : List (String × JVal)) "messages"
        (.jarr [.jobj [("role", .jstr "user"), ("content", .jstr "hi")]])).lookup
      "messages" =
      some (.jarr [.jobj [("role", .jstr "user"), ("content", .jstr "hi")]]) :=
  (c1_amended_reuse_substitution (fun _ => none) (fun _ => none)
      [StateField.mk "messages" "list" (.jarr [])] []
      (some "w") [("w", true)]
      [("w", .jarr [.jobj [("role", .jstr "user"), ("content", .jstr "hi")]])]
      [] false rfl).1
    "w" [.jobj [("role", .jstr "user"), ("content", .jstr "hi")]]
    rfl rfl rfl rfl rfl rfl (List.cons_ne_nil _ _)

/-- Counterexample to C1 as stated: an int-typed field canonically named
`messages` is supplied by the operator (raw text `5`, accepted into the
payload as the number 5 by the per-field loop), yet the reuse substitution
still fires and replaces it with the stored prior conversation — so
"if any of these conditions fails, no substitution occurs" is false. -/
theorem c1_counterexample_supplied_numeric_messages :
    buildLoop (fun _ => none)
        (fun r => match r with | .rstr "5" => some 5 | _ => none)
        [StateField.mk "messages" "int" (.jnum 0)] [("messages", .rstr "5")] =
      .ok ([("messages", .jnum 5)], false) ∧
    buildInitialState (fun _ => none)
        (fun r => match r with | .rstr "5" => some 5 | _ => none)
        [StateField.mk "messages" "int" (.jnum 0)] [("messages", .rstr "5")]
        (some "w") [("w", true)]
        [("w", .jarr [.jobj [("role", .jstr "assistant"), ("content", .jstr "hi")]])] =
      ⟨some [("messages",
          .jarr [.jobj [("role", .jstr "assistant"), ("content", .jstr "hi")]])],
        none⟩ ∧
    JVal.jnum 5 ≠
      JVal.jarr [.jobj [("role", .jstr "assistant"), ("content", .jstr "hi")]] :=
  ⟨rfl, rfl, fun h => JVal.noConfusion h⟩

/-- Counterexample to C3 as stated: a state-snapshot whose `messages`
field is the *empty* array still overwrites the session's stored
last-known conversation (the handler checks only `Array.isArray`, not
non-emptiness), so "a snapshot whose messages field is empty leaves the
stored conversation unchanged" is false. -/
theorem c3_counterexample_empty_array_overwrites :
    (applyMsg (some "w") "t"
        (Model.mk [] [] false [] []
          [("w", .jarr [.jobj [("role", .jstr "user"), ("content", .jstr "hi")]])])
        (.state_update (some (.jobj [("messages", .jarr [])])))).lastMessagesByWorkflow =
      [("w", .jarr [])] ∧
    [("w", JVal.jarr [.jobj [("role", .jstr "user"), ("content", .jstr "hi")]])] ≠
      [("w", JVal.jarr [])] := by
  refine ⟨rfl, ?_⟩
  simp

/-- C3 (amended): applying a state-snapshot event overwrites the session's
last-known conversation exactly when the snapshot's `messages` field is a
structured sequence (an array), empty or not; a snapshot whose `messages`
field is absent or not an array leaves the model unchanged. -/
theorem c3_amended_state_update (w ts : String) (m : Model) (data : Option JVal)
    (hw : (w == "") = false) :
    (∀ ms, objGet (jsOrEmptyObj data) "messages" = some (.jarr ms) →
      applyMsg (some w) ts m (.state_update data) =
        { m with lastMessagesByWorkflow :=
            objSet m.lastMessagesByWorkflow w (.jarr ms) }) ∧
    ((∀ ms, objGet (jsOrEmptyObj data) "messages" ≠ some (.jarr ms)) →
      applyMsg (some w) ts m (.state_update data) = m) := by
  have htr : truthyId (some w) = true := by simp [truthyId, hw]
  constructor
  · intro ms hms
    simp [applyMsg, htr, hms]
  · intro hnone
    cases hb : objGet (jsOrEmptyObj data) "messages" with
    | none => simp [applyMsg, htr, hb]
    | some v =>
      cases v with
      | jarr ms => exact absurd hb (hnone ms)
      | jnull => simp [applyMsg, htr, hb]
      | jbool b => simp [applyMsg, htr, hb]
      | jnum n => simp [applyMsg, htr, hb]
      | jstr s => simp [applyMsg, htr, hb]
      | jobj fs => simp [applyMsg, htr, hb]

/-- Witness for the amended C3: a snapshot carrying an empty `messages`
array overwrites the stored conversation with the empty array. -/
theorem c3_amended_state_update_witness :
    applyMsg (some "w") "t"
        (Model.mk [] [] false [] []
          [("w", .jarr [.jobj [("role", .jstr "model"), ("content", .jstr "old")]])])
        (.state_update (some (.jobj [("messages", .jarr [])]))) =
      { Model.mk [] [] false [] []
          [("w", .jarr [.jobj [("role", .jstr "model"), ("content", .jstr "old")]])] with
        lastMessagesByWorkflow :=
          objSet [("w", .jarr [.jobj [("role", .jstr "model"), ("content", .jstr "old")]])]
            "w" (.jarr []) } :=
  (c3_amended_state_update "w" "t"
      (Model.mk [] [] false [] []
        [("w", .jarr [.jobj [("role", .jstr "model"), ("content", .jstr "old")]])])
      (some (.jobj [("messages", .jarr [])])) rfl).1 [] rfl

/-- C7: applying `{status: running}`, then `{node_update: {A: RUNNING}}`,
then `{status: completed}` to an initial view model leaves node `A`'s
status unset (the terminal status clears every node's status) and leaves
the log projection containing exactly the two synthetic status entries,
one per run-status update. -/
theorem c7_status_transition_scenario :
    ((applyMsgs (some "w")
        [("t1", .status "running"),
         ("t2", .node_update [("A", .jstr "RUNNING")]),
         ("t3", .status "completed")]
        (Model.mk [⟨"A", none, none⟩] [] false [] [] [])).nodes.map
      fun n => n.status) = [none] ∧
    ((applyMsgs (some "w")
        [("t1", .status "running"),
         ("t2", .node_update [("A", .jstr "RUNNING")]),
         ("t3", .status "completed")]
        (Model.mk [⟨"A", none, none⟩] [] false [] [] [])).logs.map
      fun e => (e.type, e.message)) =
      [("status", "Workflow running"), ("status", "Workflow completed")] :=
  ⟨rfl, rfl⟩

/-- C8: deleting a chat session never leaves the session list empty;
deleting the last remaining session atomically replaces the list with
exactly one freshly created session with no messages, and that fresh
session becomes the active one. -/
theorem c8_at_least_one_session (freshId : String) (prev : List ChatSession)
    (activeChatSessionId id : String) :
    (deleteChatSession freshId prev activeChatSessionId id).1 ≠ [] ∧
    (prev.filter (fun s => !(s.id == id)) = [] →
      deleteChatSession freshId prev activeChatSessionId id =
        ([ChatSession.mk freshId "Session 1" [] none], freshId)) := by
  constructor
  · unfold deleteChatSession
    cases h : prev.filter (fun s => !(s.id == id)) with
    | nil => simp
    | cons s rest =>
      by_cases ha : (activeChatSessionId == id) = true <;> simp [ha]
  · intro h
    unfold deleteChatSession
    rw [h]

/-- Witness for C8: deleting the only session of a one-session list yields
exactly the fresh empty session, active. -/
theorem c8_at_least_one_session_witness :
    deleteChatSession "f" [ChatSession.mk "s1" "Session 1" [] none] "s1" "s1" =
      ([ChatSession.mk "f" "Session 1" [] none], "f") :=
  (c8_at_least_one_session "f" [ChatSession.mk "s1" "Session 1" [] none] "s1" "s1").2 rfl

/-- C9: hydration loads each persisted record independently: with a
corrupt (unparseable, non-empty) graph record and valid records elsewhere,
the graph hydrates to the empty default and its storage slot is cleared,
while the chat sessions and the session identifier hydrate intact and the
chat-session slot is untouched. -/
theorem c9_hydration_independent (parse : String → Option JVal)
    (store : Storage) (g cs wfid : String) (l : List JVal)
    (hg : store.nodes = some g) (hgne : (g == "") = false) (hpg : parse g = none)
    (hcs : store.chatSessions = some cs) (hcsne : (cs == "") = false)
    (hpcs : parse cs = some (.jarr l)) (hl : 0 < l.length)
    (hwf : store.workflowId = some wfid) (hwfne : (wfid == "") = false) :
    (hydrate parse store).1.nodes = .jarr [] ∧
    (hydrate parse store).1.chatSessions = .jarr l ∧
    (hydrate parse store).1.workflowId = some wfid ∧
    (hydrate parse store).2.nodes = none ∧
    (hydrate parse store).2.chatSessions = some cs := by
  have hslotg : loadSlot parse store.nodes = (none, none) := by
    rw [hg]; simp [loadSlot, hgne, hpg]
  have hslotcs : loadSlot parse store.chatSessions = (some (.jarr l), some cs) := by
    rw [hcs]; simp [loadSlot, hcsne, hpcs]
  refine ⟨?_, ?_, ?_, ?_, ?_⟩ <;>
    simp [hydrate, hslotg, hslotcs, hwf, hwfne, hl]

/-- Witness for C9: a garbage graph record next to a valid chat-session
record and a stored workflow id. -/
theorem c9_hydration_independent_witness :
    (hydrate (fun s => if s == "CS" then some (.jarr [.jobj []]) else none)
        (Storage.mk (some "###") none (some "wf-1") (some "CS") (some "s1") none none)).1.nodes =
      .jarr [] ∧
    (hydrate (fun s => if s == "CS" then some (.jarr [.jobj []]) else none)
        (Storage.mk (some "###") none (some "wf-1") (some "CS") (some "s1") none none)).1.chatSessions =
      .jarr [.jobj []] ∧
    (hydrate (fun s => if s == "CS" then some (.jarr [.jobj []]) else none)
        (Storage.mk (some "###") none (some "wf-1") (some "CS") (some "s1") none none)).1.workflowId =
      some "wf-1" ∧
    (hydrate (fun s => if s == "CS" then some (.jarr [.jobj []]) else none)
        (Storage.mk (some "###") none (some "wf-1") (some "CS") (some "s1") none none)).2.nodes =
      none ∧
    (hydrate (fun s => if s == "CS" then some (.jarr [.jobj []]) else none)
        (Storage.mk (some "###") none (some "wf-1") (some "CS") (some "s1") none none)).2.chatSessions =
      some "CS" :=
  c9_hydration_independent
    (fun s => if s == "CS" then some (.jarr [.jobj []]) else none)
    (Storage.mk (some "###") none (some "wf-1") (some "CS") (some "s1") none none)
    "###" "CS" "wf-1" [.jobj []] rfl rfl rfl rfl rfl rfl (by decide) rfl rfl

end BTFlow
